import Mathlib

/-!
Verification of the event-recommendation engine of the Lime Team project
(`src/recommend.py`).  The Python module is shallowly embedded below:
pandas DataFrames become lists of records, Python floats become exact
rationals, and the results of the external pandas date parser
(`pd.to_datetime`) are carried as data on each input row, since that parser
is third-party library code, not code of this repository.  Fallible code
(`raise ValueError`) is modelled with `Except String`.
-/

namespace Lime

/-! ### Python string helpers

Small executable models of the Python string operations used by
`recommend.py` (`str.strip`, `str.lower`, `str.upper`, `str.replace`,
substring containment).  They are written over `List Char` so that every
definition reduces inside the kernel.  ASCII behaviour is what the scraped
event data exercises. -/

def isSpaceChar (c : Char) : Bool :=
  c.isWhitespace

/-- Model of Python `str.strip()`. -/
def pyStrip (s : String) : String :=
  ⟨((s.toList.dropWhile isSpaceChar).reverse.dropWhile isSpaceChar).reverse⟩

/-- Model of Python `str.lower()`. -/
def pyLower (s : String) : String :=
  ⟨s.toList.map Char.toLower⟩

/-- Model of Python `str.upper()`. -/
def pyUpper (s : String) : String :=
  ⟨s.toList.map Char.toUpper⟩

/-- Model of Python `text.replace(",", "")`. -/
def removeCommas (s : String) : String :=
  ⟨s.toList.filter (fun c => c ≠ ',')⟩

/-- Is `needle` a prefix of `hay`? -/
def isPrefixOfB (needle hay : List Char) : Bool :=
  match needle, hay with
  | [], _ => true
  | _ :: _, [] => false
  | a :: as, b :: bs => a = b && isPrefixOfB as bs

/-- Model of Python substring containment `needle in hay`. -/
def containsSubB (needle hay : List Char) : Bool :=
  match hay with
  | [] => needle.isEmpty
  | _ :: t => isPrefixOfB needle hay || containsSubB needle t

/-! ### Numeric-token scanner

Model of `re.findall(r"\d+(?:\.\d+)?", text)` from `_parse_price_text`.
The regex scans left to right, taking a maximal digit run, optionally
followed by a dot and a further maximal digit run; this is realised as a
small DFA folded over the characters. -/

inductive NumScan where
  | idle
  | intDigits (ds : List Char)
  | dotSeen (ds : List Char)
  | fracDigits (ds fs : List Char)

def numStep (st : List (List Char) × NumScan) (c : Char) : List (List Char) × NumScan :=
  match st with
  | (acc, NumScan.idle) =>
    if c.isDigit then (acc, NumScan.intDigits [c]) else (acc, NumScan.idle)
  | (acc, NumScan.intDigits ds) =>
    if c.isDigit then (acc, NumScan.intDigits (ds ++ [c]))
    else if c = '.' then (acc, NumScan.dotSeen ds)
    else (acc ++ [ds], NumScan.idle)
  | (acc, NumScan.dotSeen ds) =>
    if c.isDigit then (acc, NumScan.fracDigits ds [c])
    else (acc ++ [ds], NumScan.idle)
  | (acc, NumScan.fracDigits ds fs) =>
    if c.isDigit then (acc, NumScan.fracDigits ds (fs ++ [c]))
    else (acc ++ [ds ++ '.' :: fs], NumScan.idle)

def finishScan (st : List (List Char) × NumScan) : List (List Char) :=
  match st with
  | (acc, NumScan.idle) => acc
  | (acc, NumScan.intDigits ds) => acc ++ [ds]
  | (acc, NumScan.dotSeen ds) => acc ++ [ds]
  | (acc, NumScan.fracDigits ds fs) => acc ++ [ds ++ '.' :: fs]

/-- All matches of `\d+(?:\.\d+)?` in `s`, in order. -/
def scanNumbers (s : String) : List (List Char) :=
  finishScan (s.toList.foldl numStep ([], NumScan.idle))

def natOfDigits (ds : List Char) : Nat :=
  ds.foldl (fun a c => a * 10 + (c.toNat - 48)) 0

/-- Model of Python `float` applied to a matched numeric token; the decimal
literal is read exactly into `ℚ`. -/
def ratOfToken (tok : List Char) : ℚ :=
  let intPart := tok.takeWhile (fun c => c ≠ '.')
  let rest := tok.dropWhile (fun c => c ≠ '.')
  match rest with
  | [] => (natOfDigits intPart : ℚ)
  | _ :: frac => (natOfDigits intPart : ℚ) + (natOfDigits frac : ℚ) / ((10 : ℚ) ^ frac.length)

/-- Python `round(q, n)` (banker's rounding), modelled on exact rationals. -/
def roundHalfEven (q : ℚ) : ℤ :=
  let f := q.floor
  let frac := q - (f : ℚ)
  if frac < 1 / 2 then f
  else if 1 / 2 < frac then f + 1
  else if f % 2 = 0 then f else f + 1

def roundTo2 (q : ℚ) : ℚ :=
  (roundHalfEven (q * 100) : ℚ) / 100

def roundTo4 (q : ℚ) : ℚ :=
  (roundHalfEven (q * 10000) : ℚ) / 10000

/-! ### Data model -/

/-- A parsed pandas timestamp, collapsed to what the recommendation code
observes: the normalized calendar day (as an abstract epoch-day count, the
image of `Timestamp.normalize`) and the hour of day. -/
structure DateTime where
  day : Int
  hour : Nat
deriving Repr, DecidableEq

/-- A raw event row.  The seven string columns are the repository's schema.
`combinedParse` and `dateParse` carry the results of the external pandas
parser on `"{date} {time}"` and on `date` alone (`none` = `NaT`), as used by
`_coerce_start_time`; they are input data because `pd.to_datetime` is
third-party code. -/
structure RawRow where
  name : String
  date : String
  time : String
  location : String
  price : String
  source : String
  url : String
  combinedParse : Option DateTime
  dateParse : Option Int
deriving Repr, DecidableEq

/-- An input DataFrame: the set of columns present, plus its rows.
`rows = []` or `columns = []` models `df.empty`. -/
structure Table where
  columns : List String
  rows : List RawRow
deriving Repr, DecidableEq

/-- A prepared candidate row (output schema of `_prepare_candidates`). -/
structure Candidate where
  name : String
  date : String
  time : String
  location : String
  price : String
  source : String
  url : String
  estimated_cost : ℚ
  start_time : Option DateTime
deriving Repr, DecidableEq

/-- `UserPreferences` from `recommend.py`.  `event_date` holds the result of
`_normalize_event_date` on the user's date string (`none` = missing or
unparseable), since the actual parse is done by the external pandas parser. -/
structure UserPreferences where
  budget : ℚ
  preferred_period : String
  max_results : Int
  min_price : ℚ
  event_date : Option Int
  allow_flexible_dates : Bool
deriving Repr, DecidableEq

inductive MatchLevel where
  | exact
  | flexible_period
  | flexible_date
  | flexible_period_and_date
deriving Repr, DecidableEq

/-- `MATCH_LEVEL_PRIORITY`. -/
def matchLevelPriority : MatchLevel → Int
  | MatchLevel.exact => 0
  | MatchLevel.flexible_period => 1
  | MatchLevel.flexible_date => 2
  | MatchLevel.flexible_period_and_date => 3

/-- `MATCH_LEVEL_LABEL`. -/
def matchLevelLabel : MatchLevel → String
  | MatchLevel.exact => "Exact match"
  | MatchLevel.flexible_period => "Flexible match (time flexible)"
  | MatchLevel.flexible_date => "Flexible match (date flexible)"
  | MatchLevel.flexible_period_and_date => "Flexible match (date and time flexible)"

def flexibleDateWindowDays : Nat := 3

/-- A scored candidate row (columns added by `score_candidates`). -/
structure ScoredRow where
  cand : Candidate
  price_score : ℚ
  time_score : ℚ
  overall_score : ℚ
deriving Repr, DecidableEq

/-- A row of the final selection: scored row plus the `_match_level` tag and
the `_date_distance_days` column (present only on date-flexible rows). -/
structure SelectedRow where
  row : ScoredRow
  matchLevel : MatchLevel
  dateDistanceDays : Option Int
deriving Repr, DecidableEq

/-- The diagnostics dictionary of
`select_ranked_candidates_with_flexible_filters`. -/
structure Diagnostics where
  requested : Nat
  returned : Nat
  exact_available : Nat
  exact_returned : Nat
  flexible_returned : Nat
deriving Repr, DecidableEq

/-! ### `recommend.py`, function by function -/

/-- `_normalize_period` (every call site in the module uses the default
`default="any"`, so the default is inlined). -/
def normalizePeriod (value : String) : String :=
  let text := pyLower (pyStrip value)
  if text = "morning" ∨ text = "afternoon" ∨ text = "evening" ∨ text = "any" then text
  else "any"

/-- `PERIOD_INDEX`.  The Python dict contains exactly the three periods;
callers only apply it to values of `_hour_to_period` and to a normalized
period that is not `"any"`, so the catch-all branch is unreachable there. -/
def periodIndex (p : String) : Int :=
  if p = "morning" then 0
  else if p = "afternoon" then 1
  else 2

/-- `_hour_to_period`. -/
def hourToPeriod (hour : Nat) : String :=
  if 5 ≤ hour ∧ hour < 12 then "morning"
  else if 12 ≤ hour ∧ hour < 17 then "afternoon"
  else "evening"

/-- The numeric tokens `_parse_price_text` extracts from the stripped text. -/
def priceTokens (text : String) : List ℚ :=
  (scanNumbers (removeCommas text)).map ratOfToken

/-- `"free" in text.lower()`. -/
def isFreeText (text : String) : Bool :=
  containsSubB ("free").toList (pyLower text).toList

/-- `"-" in text or " to " in text.lower()`. -/
def hasRangeSep (text : String) : Bool :=
  text.toList.any (fun c => c = '-') || containsSubB (" to ").toList (pyLower text).toList

/-- `_parse_price_text`. -/
def parsePriceText (value : String) : ℚ :=
  let text := pyStrip value
  if text = "" then 0
  else if pyUpper text = "N/A" then 0
  else if isFreeText text then 0
  else
    match priceTokens text with
    | [] => 0
    | [x] => x
    | x :: y :: _ => if hasRangeSep text then roundTo2 ((x + y) / 2) else x

/-- `_coerce_start_time`, one row at a time: the combined `"{date} {time}"`
parse, falling back to the date-only parse (whose hour is midnight). -/
def coerceStartTime (r : RawRow) : Option DateTime :=
  match r.combinedParse with
  | some dt => some dt
  | none => r.dateParse.map (fun d => DateTime.mk d 0)

def requiredColumns : List String :=
  ["name", "date", "time", "location", "price", "source", "url"]

def missingColumns (t : Table) : List String :=
  requiredColumns.filter (fun c => !(t.columns.contains c))

def joinComma (l : List String) : String :=
  match l with
  | [] => ""
  | [x] => x
  | x :: rest => x ++ ", " ++ joinComma rest

/-- One row of `_prepare_candidates`' column work: trim every string column
except `price`, parse the price, synthesize `start_time`. -/
def prepareRow (r : RawRow) : Candidate :=
  { name := pyStrip r.name
    date := pyStrip r.date
    time := pyStrip r.time
    location := pyStrip r.location
    price := r.price
    source := pyStrip r.source
    url := pyStrip r.url
    estimated_cost := parsePriceText r.price
    start_time := coerceStartTime r }

/-- The `drop_duplicates(subset=[...])` key: the raw (stripped, not
lowercased) `source, name, date, time, location` columns. -/
def prepKey (c : Candidate) : String × String × String × String × String :=
  (c.source, c.name, c.date, c.time, c.location)

/-- Keep-first deduplication by a key, as `DataFrame.drop_duplicates` does. -/
def dedupByKey {α κ : Type} [DecidableEq κ] (key : α → κ) (seen : List κ) :
    List α → List α
  | [] => []
  | x :: xs =>
    if key x ∈ seen then dedupByKey key seen xs
    else x :: dedupByKey key (key x :: seen) xs

/-- The prepared rows of `_prepare_candidates` before deduplication:
column normalization followed by dropping empty-name rows. -/
def preparedNoDedup (rows : List RawRow) : List Candidate :=
  (rows.map prepareRow).filter (fun c => !(pyStrip c.name = ""))

/-- `_prepare_candidates`.  Note the Python function returns the input copy
unchanged when `df.empty` (zero rows or zero columns), before the schema
check; the schema error is raised only on non-empty frames. -/
def prepareCandidates (t : Table) : Except String (List Candidate) :=
  if t.rows.isEmpty || t.columns.isEmpty then Except.ok []
  else
    let missing := missingColumns t
    if missing.isEmpty then Except.ok (dedupByKey prepKey [] (preparedNoDedup t.rows))
    else Except.error (("Recommendation input is missing required columns: ") ++ joinComma missing)

/-- `filter_by_price`. -/
def filterByPrice (l : List Candidate) (minPrice maxPrice : ℚ) : List Candidate :=
  if l.isEmpty then l
  else if minPrice ≤ 0 ∧ maxPrice ≤ 0 then l
  else l.filter (fun c =>
    (decide (minPrice ≤ 0) || decide (minPrice ≤ c.estimated_cost)) &&
    (decide (maxPrice ≤ 0) || decide (c.estimated_cost ≤ maxPrice)))

/-- `filter_by_time_period`.  Rows whose `start_time` is `NaT` never match a
specific period. -/
def filterByTimePeriod (l : List Candidate) (preferredPeriod : String) : List Candidate :=
  if l.isEmpty then l
  else
    let target := normalizePeriod preferredPeriod
    if target = "any" then l
    else l.filter (fun c =>
      match c.start_time with
      | some ts => decide (hourToPeriod ts.hour = target)
      | none => false)

/-- `filter_by_event_date`, with the target date already normalized. -/
def filterByEventDate (l : List Candidate) (eventDate : Option Int) : List Candidate :=
  if l.isEmpty then l
  else
    match eventDate with
    | none => l
    | some d => l.filter (fun c =>
        match c.start_time with
        | some ts => decide (ts.day = d)
        | none => false)

/-- `_budget_score`.  The Python constant `1e-9` is modelled by the exact
rational `1/10^9`. -/
def budgetScore (cost budget : ℚ) : ℚ :=
  if budget ≤ 0 then 7 / 10
  else if cost ≤ budget then max (2 / 5) (1 - cost / max budget (1 / 1000000000) * (3 / 5))
  else
    let overFrac := (cost - budget) / max budget (1 / 1000000000)
    if overFrac ≤ 1 / 10 then 1 / 5
    else if overFrac ≤ 1 / 4 then 1 / 10
    else 0

/-- `_time_score`. -/
def timeScore (timestamp : Option DateTime) (prefs : UserPreferences) : ℚ :=
  let preferredPeriod := normalizePeriod prefs.preferred_period
  if preferredPeriod = "any" then 1
  else
    match timestamp with
    | none => 1 / 5
    | some ts =>
      let d := (periodIndex (hourToPeriod ts.hour) - periodIndex preferredPeriod).natAbs
      if d = 0 then 1
      else if d = 1 then 11 / 20
      else 1 / 4

/-- The three score columns added by `score_candidates`. -/
def mkScored (c : Candidate) (prefs : UserPreferences) : ScoredRow :=
  let ps := budgetScore c.estimated_cost prefs.budget
  let ts := timeScore c.start_time prefs
  { cand := c, price_score := ps, time_score := ts
    overall_score := ps * (11 / 20) + ts * (9 / 20) }

/-- Stable insertion into a sorted list: `x` goes before the first element
`y` it is not strictly after (`lt y x = false`), so equal keys keep their
original order. -/
def insertStable {α : Type} (lt : α → α → Bool) (x : α) : List α → List α
  | [] => [x]
  | y :: ys => if lt y x then y :: insertStable lt x ys else x :: y :: ys

/-- A stable sort placing `a` before `b` whenever `lt a b`; models pandas
`sort_values` on several columns, which uses the stable `numpy.lexsort`. -/
def sortStable {α : Type} (lt : α → α → Bool) : List α → List α
  | [] => []
  | x :: xs => insertStable lt x (sortStable lt xs)

/-- The strict comparison of `score_candidates`' sort:
`overall_score` descending, then `time_score` descending. -/
def scoreLtB (a b : ScoredRow) : Bool :=
  decide (b.overall_score < a.overall_score ∨
    (b.overall_score = a.overall_score ∧ b.time_score < a.time_score))

/-- `score_candidates` before its final sort: prepare, filter by price /
period / date, then score.  Split out so that stability can be stated
against the pre-sort row order. -/
def scoredUnsorted (t : Table) (prefs : UserPreferences) : Except String (List ScoredRow) :=
  match prepareCandidates t with
  | Except.error e => Except.error e
  | Except.ok prepared =>
    if prepared.isEmpty then Except.ok []
    else
      let preferredPeriod := normalizePeriod prefs.preferred_period
      let f1 := filterByPrice prepared (max 0 prefs.min_price) (max 0 prefs.budget)
      let f2 := filterByTimePeriod f1 preferredPeriod
      let f3 := filterByEventDate f2 prefs.event_date
      Except.ok (f3.map (fun c => mkScored c prefs))

/-- `score_candidates`. -/
def scoreCandidates (t : Table) (prefs : UserPreferences) : Except String (List ScoredRow) :=
  match scoredUnsorted t prefs with
  | Except.error e => Except.error e
  | Except.ok l => Except.ok (sortStable scoreLtB l)

/-- `_candidate_identity`. -/
def candidateIdentity (c : Candidate) : String × String × String × String × String :=
  (pyLower (pyStrip c.source), pyLower (pyStrip c.name), pyStrip c.date,
   pyStrip c.time, pyLower (pyStrip c.location))

/-- `_build_flexible_filter_stages`. -/
def buildFlexibleFilterStages (prefs : UserPreferences) : List (MatchLevel × UserPreferences) :=
  let hasPeriodFilter := normalizePeriod prefs.preferred_period ≠ "any"
  let hasDateFilter := prefs.event_date.isSome
  [(MatchLevel.exact, prefs)]
    ++ (if hasPeriodFilter then
          [(MatchLevel.flexible_period, { prefs with preferred_period := "any" })]
        else [])
    ++ (if hasDateFilter = true ∧ prefs.allow_flexible_dates = true then
          [(MatchLevel.flexible_date, { prefs with event_date := none })]
        else [])
    ++ (if hasPeriodFilter ∧ hasDateFilter = true ∧ prefs.allow_flexible_dates = true then
          [(MatchLevel.flexible_period_and_date,
            { prefs with preferred_period := "any", event_date := none })]
        else [])

/-- `_apply_stage_specific_filters` composed with `_filter_to_nearby_dates`:
date-flexible stages keep only rows whose parsed day is within
`FLEXIBLE_DATE_WINDOW_DAYS` of the originally requested date, and receive
the `_date_distance_days` column; other stages pass through unchanged with
no such column (`none`). -/
def applyStageSpecificFilters (scored : List ScoredRow) (level : MatchLevel)
    (prefs : UserPreferences) : List (ScoredRow × Option Int) :=
  if level = MatchLevel.flexible_date ∨ level = MatchLevel.flexible_period_and_date then
    match prefs.event_date with
    | none => scored.map (fun s => (s, none))
    | some target =>
      scored.filterMap (fun s =>
        match s.cand.start_time with
        | none => none
        | some ts =>
          let d := (ts.day - target).natAbs
          if d ≤ flexibleDateWindowDays then some (s, some (d : Int)) else none)
  else scored.map (fun s => (s, none))

/-- The inner row loop of `select_ranked_candidates_with_flexible_filters`:
walk a stage's rows in score order, skip identities already seen, append
until the running total reaches the target. -/
def scanStageRows (level : MatchLevel) (target : Nat) :
    List (ScoredRow × Option Int) →
    List (String × String × String × String × String) →
    List SelectedRow →
    List SelectedRow × List (String × String × String × String × String)
  | [], seen, acc => (acc, seen)
  | (r, dd) :: rest, seen, acc =>
    let idy := candidateIdentity r.cand
    if idy ∈ seen then scanStageRows level target rest seen acc
    else
      let acc2 := acc ++ [SelectedRow.mk r level dd]
      let seen2 := idy :: seen
      if target ≤ acc2.length then (acc2, seen2)
      else scanStageRows level target rest seen2 acc2

/-- The stage loop of `select_ranked_candidates_with_flexible_filters`:
score the full table under each stage's preference variant, track the
number of EXACT-stage rows available, and stop once the target is reached.
Also returns `exact_available`. -/
def selectLoop (t : Table) (prefs : UserPreferences) (target : Nat) :
    List (MatchLevel × UserPreferences) →
    List (String × String × String × String × String) →
    List SelectedRow → Nat →
    Except String (List SelectedRow × Nat)
  | [], _, acc, exactAvail => Except.ok (acc, exactAvail)
  | (level, stagePrefs) :: rest, seen, acc, exactAvail =>
    match scoreCandidates t stagePrefs with
    | Except.error e => Except.error e
    | Except.ok scored =>
      let stageRows := applyStageSpecificFilters scored level prefs
      let ea := if level = MatchLevel.exact then stageRows.length else exactAvail
      if stageRows.isEmpty then selectLoop t prefs target rest seen acc ea
      else
        let res := scanStageRows level target stageRows seen acc
        if target ≤ res.1.length then Except.ok (res.1, ea)
        else selectLoop t prefs target rest res.2 res.1 ea

/-- `_date_distance_sort`: the `_date_distance_days` column coerced to
numbers with `NaN` (and an absent column) treated as `0`. -/
def dateDistanceSort (s : SelectedRow) : Int :=
  s.dateDistanceDays.getD 0

/-- The strict comparison of the final re-sort: `_match_priority` ascending,
`_date_distance_sort` ascending, `overall_score` descending, `time_score`
descending. -/
def finalLtB (a b : SelectedRow) : Bool :=
  decide (matchLevelPriority a.matchLevel < matchLevelPriority b.matchLevel ∨
    (matchLevelPriority a.matchLevel = matchLevelPriority b.matchLevel ∧
      (dateDistanceSort a < dateDistanceSort b ∨
        (dateDistanceSort a = dateDistanceSort b ∧
          (b.row.overall_score < a.row.overall_score ∨
            (b.row.overall_score = a.row.overall_score ∧
              b.row.time_score < a.row.time_score))))))

/-- `select_ranked_candidates_with_flexible_filters`. -/
def selectRanked (t : Table) (prefs : UserPreferences) :
    Except String (List SelectedRow × Diagnostics) :=
  let target := (max 1 prefs.max_results).toNat
  match selectLoop t prefs target (buildFlexibleFilterStages prefs) [] [] 0 with
  | Except.error e => Except.error e
  | Except.ok (rows, exactAvail) =>
    if rows.isEmpty then
      Except.ok ([], Diagnostics.mk target 0 exactAvail 0 0)
    else
      let sorted := (sortStable finalLtB rows).take target
      let exactReturned :=
        (sorted.filter (fun r => decide (r.matchLevel = MatchLevel.exact))).length
      Except.ok (sorted,
        Diagnostics.mk target sorted.length exactAvail exactReturned
          (sorted.length - exactReturned))

/-- One output stop record (`_row_to_stop`).  The Python code formats the
timestamp as a display string; the model keeps the parsed value itself,
which carries the same information for a normalized pandas timestamp. -/
structure Stop where
  name : String
  category : String
  location : String
  estimated_cost : ℚ
  source : String
  start_time : Option DateTime
  url : String
deriving Repr, DecidableEq

def rowToStop (r : SelectedRow) : Stop :=
  { name := r.row.cand.name
    category := "event"
    location := r.row.cand.location
    estimated_cost := r.row.cand.estimated_cost
    source := r.row.cand.source
    start_time := r.row.cand.start_time
    url := r.row.cand.url }

/-- One output suggestion record. -/
structure Suggestion where
  plan_name : String
  total_estimated_cost : ℚ
  score : ℚ
  match_level : MatchLevel
  match_label : String
  stops : List Stop
  backup_idea : String
deriving Repr, DecidableEq

def mkSuggestion (index : Nat) (r : SelectedRow) : Suggestion :=
  { plan_name := ("Event Suggestion #") ++ toString index
    total_estimated_cost := roundTo2 r.row.cand.estimated_cost
    score := roundTo4 r.row.overall_score
    match_level := r.matchLevel
    match_label := matchLevelLabel r.matchLevel
    stops := [rowToStop r]
    backup_idea := "" }

def buildSuggestionsAux (index : Nat) : List SelectedRow → List Suggestion
  | [] => []
  | r :: rest => mkSuggestion index r :: buildSuggestionsAux (index + 1) rest

/-- `build_event_suggestions`. -/
def buildEventSuggestions (scored : List SelectedRow) (prefs : UserPreferences) :
    List Suggestion :=
  if scored.isEmpty then []
  else buildSuggestionsAux 1 (scored.take (max 1 prefs.max_results).toNat)

/-! ### Claim-level orderings

The orderings the specification describes for the two sorts, stated
directly (not via the comparison booleans used by the implementation). -/

/-- `a` may come before `b` in `score_candidates`' output: `overall_score`
descending, ties broken by `time_score` descending. -/
def scoreOrdered (a b : ScoredRow) : Prop :=
  b.overall_score < a.overall_score ∨
    (b.overall_score = a.overall_score ∧ b.time_score ≤ a.time_score)

/-- `a` may come before `b` in the final selection: match-stage priority
ascending, then date distance ascending, then `overall_score` descending,
then `time_score` descending. -/
def finalOrdered (a b : SelectedRow) : Prop :=
  matchLevelPriority a.matchLevel < matchLevelPriority b.matchLevel ∨
    (matchLevelPriority a.matchLevel = matchLevelPriority b.matchLevel ∧
      (dateDistanceSort a < dateDistanceSort b ∨
        (dateDistanceSort a = dateDistanceSort b ∧
          (b.row.overall_score < a.row.overall_score ∨
            (b.row.overall_score = a.row.overall_score ∧
              b.row.time_score ≤ a.row.time_score)))))

/-! ### Concrete inputs used by the witness theorems -/

def w1Row : RawRow :=
  { name := "A", date := "2026-01-01", time := "", location := "L", price := ""
    source := "s", url := "u", combinedParse := some (DateTime.mk 0 0), dateParse := some 0 }

def w1Prefs : UserPreferences :=
  { budget := 0, preferred_period := "any", max_results := 5, min_price := 0
    event_date := none, allow_flexible_dates := false }

def w1Tbl : Table := { columns := requiredColumns, rows := [w1Row] }

def w1Sel : SelectedRow :=
  { row := { cand := prepareRow w1Row, price_score := 7 / 10, time_score := 1
             overall_score := 167 / 200 }
    matchLevel := MatchLevel.exact
    dateDistanceDays := none }

def w2Row : RawRow :=
  { name := "A", date := "2026-02-03", time := "10:00", location := "L", price := "$12"
    source := "s", url := "u", combinedParse := some (DateTime.mk 3 10), dateParse := some 3 }

def w2Prefs : UserPreferences :=
  { budget := 50, preferred_period := "morning", max_results := 5, min_price := 0
    event_date := some 5, allow_flexible_dates := false }

def w2Tbl : Table := { columns := requiredColumns, rows := [w2Row] }

def w5Prefs : UserPreferences :=
  { budget := 100, preferred_period := "morning", max_results := 5, min_price := 0
    event_date := none, allow_flexible_dates := false }

def w6RowA : RawRow :=
  { name := "A", date := "2026-02-03", time := "10:00", location := "L", price := "$10"
    source := "s", url := "u", combinedParse := some (DateTime.mk 3 10), dateParse := some 3 }

def w6RowB : RawRow :=
  { name := "B", date := "2026-02-03", time := "11:00", location := "L", price := "$10"
    source := "s", url := "u", combinedParse := some (DateTime.mk 3 11), dateParse := some 3 }

def w6Prefs : UserPreferences :=
  { budget := 100, preferred_period := "morning", max_results := 5, min_price := 0
    event_date := none, allow_flexible_dates := false }

def w6Tbl : Table := { columns := requiredColumns, rows := [w6RowA, w6RowB] }

def w6ScoredA : ScoredRow :=
  { cand := prepareRow w6RowA, price_score := 47 / 50, time_score := 1
    overall_score := 967 / 1000 }

def w6ScoredB : ScoredRow :=
  { cand := prepareRow w6RowB, price_score := 47 / 50, time_score := 1
    overall_score := 967 / 1000 }

def w7RowA : RawRow :=
  { name := "Jazz Night", date := "2026-02-10", time := "19:00", location := "NYC"
    price := "$10", source := "ev", url := "u1"
    combinedParse := some (DateTime.mk 10 19), dateParse := some 10 }

def w7RowB : RawRow :=
  { name := "JAZZ NIGHT", date := "2026-02-10", time := "19:00", location := "NYC"
    price := "$10", source := "ev", url := "u2"
    combinedParse := some (DateTime.mk 10 19), dateParse := some 10 }

def w7Tbl : Table := { columns := requiredColumns, rows := [w7RowA, w7RowB] }

def w8EmptyTbl : Table := { columns := [], rows := [] }

def w8Tbl : Table := { columns := ["name"], rows := [w7RowA] }

def w10Prefs : UserPreferences :=
  { budget := 0, preferred_period := "any", max_results := 0, min_price := 0
    event_date := none, allow_flexible_dates := false }

def w10Tbl : Table := { columns := requiredColumns, rows := [w1Row] }

def w10Sel : SelectedRow :=
  { row := { cand := prepareRow w1Row, price_score := 7 / 10, time_score := 1
             overall_score := 167 / 200 }
    matchLevel := MatchLevel.exact
    dateDistanceDays := none }

/-! ### Generic facts about the stable insertion sort -/

theorem insertStable_perm {α : Type} (lt : α → α → Bool) (x : α) (l : List α) :
    List.Perm (insertStable lt x l) (x :: l) := by
  induction l with
  | nil => simp [insertStable]
  | cons y ys ih =>
    simp only [insertStable]
    split
    · exact (ih.cons y).trans (List.Perm.swap x y ys)
    · exact List.Perm.refl _

theorem sortStable_perm {α : Type} (lt : α → α → Bool) (l : List α) :
    List.Perm (sortStable lt l) l := by
  induction l with
  | nil => simp [sortStable]
  | cons x xs ih =>
    simp only [sortStable]
    exact (insertStable_perm lt x _).trans (ih.cons x)

theorem pairwise_insertStable {α : Type} (lt : α → α → Bool)
    (hasymm : ∀ a b, lt a b = true → lt b a = false)
    (hneg : ∀ a b c, lt b a = false → lt c b = false → lt c a = false)
    (x : α) (l : List α) (h : l.Pairwise (fun a b => lt b a = false)) :
    (insertStable lt x l).Pairwise (fun a b => lt b a = false) := by
  induction l with
  | nil => simp [insertStable]
  | cons y ys ih =>
    rcases List.pairwise_cons.mp h with ⟨hy, hys⟩
    simp only [insertStable]
    by_cases hlt : lt y x = true
    · rw [if_pos hlt]
      refine List.pairwise_cons.mpr ⟨?_, ih hys⟩
      intro z hz
      rcases List.mem_cons.mp ((insertStable_perm lt x ys).mem_iff.mp hz) with hzx | hzys
      · exact hzx ▸ hasymm y x hlt
      · exact hy z hzys
    · have hlt' : lt y x = false := by
        cases hv : lt y x
        · rfl
        · exact absurd hv hlt
      rw [if_neg hlt]
      refine List.pairwise_cons.mpr ⟨?_, h⟩
      intro z hz
      rcases List.mem_cons.mp hz with hzy | hzys
      · exact hzy ▸ hlt'
      · exact hneg x y z hlt' (hy z hzys)

theorem pairwise_sortStable {α : Type} (lt : α → α → Bool)
    (hasymm : ∀ a b, lt a b = true → lt b a = false)
    (hneg : ∀ a b c, lt b a = false → lt c b = false → lt c a = false)
    (l : List α) :
    (sortStable lt l).Pairwise (fun a b => lt b a = false) := by
  induction l with
  | nil => simp [sortStable]
  | cons x xs ih =>
    simp only [sortStable]
    exact pairwise_insertStable lt hasymm hneg x _ ih

theorem filter_insertStable {α : Type} (lt : α → α → Bool) (p : α → Bool) (x : α)
    (l : List α)
    (hp : ∀ y, lt y x = true → p y = true → p x = true → False) :
    (insertStable lt x l).filter p = (x :: l).filter p := by
  induction l with
  | nil => simp [insertStable]
  | cons y ys ih =>
    simp only [insertStable]
    by_cases hlt : lt y x = true
    · rw [if_pos hlt]
      by_cases hpx : p x = true
      · have hpy : p y = false := by
          cases hv : p y
          · rfl
          · exact (hp y hlt hv hpx).elim
        simp [List.filter_cons, hpy, hpx, ih]
      · have hpx' : p x = false := by
          cases hv : p x
          · rfl
          · exact absurd hv hpx
        simp [List.filter_cons, hpx', ih]
    · rw [if_neg hlt]

theorem filter_sortStable {α : Type} (lt : α → α → Bool) (p : α → Bool)
    (hp : ∀ x y, lt y x = true → p y = true → p x = true → False)
    (l : List α) :
    (sortStable lt l).filter p = l.filter p := by
  induction l with
  | nil => simp [sortStable]
  | cons x xs ih =>
    simp only [sortStable]
    rw [filter_insertStable lt p x _ (fun y h1 h2 h3 => hp x y h1 h2 h3)]
    simp [List.filter_cons, ih]

/-! ### Bridging the comparison booleans with the claim-level orderings -/

theorem not_lex_iff {β : Type} [LinearOrder β] {x y : β} {P Q : Prop} (h : ¬P ↔ Q) :
    ¬(y < x ∨ (y = x ∧ P)) ↔ (x < y ∨ (x = y ∧ Q)) := by
  constructor
  · intro hn
    push_neg at hn
    rcases hn with ⟨h1, h2⟩
    rcases lt_or_eq_of_le h1 with h3 | h3
    · exact Or.inl h3
    · exact Or.inr ⟨h3, h.mp (h2 h3.symm)⟩
  · intro hq hc
    rcases hc with hc | ⟨he, hp⟩
    · rcases hq with hq | ⟨he2, _⟩
      · exact absurd hq (not_lt.mpr (le_of_lt hc))
      · rw [he2] at hc
        exact lt_irrefl y hc
    · rcases hq with hq | ⟨_, hqq⟩
      · rw [he] at hq
        exact lt_irrefl x hq
      · exact (h.mpr hqq) hp

theorem lex_trans {β : Type} [LinearOrder β] {x y z : β} {P Q R : Prop}
    (hpq : P → Q → R) :
    (x < y ∨ (x = y ∧ P)) → (y < z ∨ (y = z ∧ Q)) → (x < z ∨ (x = z ∧ R)) := by
  intro h1 h2
  rcases h1 with h1 | ⟨e1, p⟩ <;> rcases h2 with h2 | ⟨e2, q⟩
  · exact Or.inl (lt_trans h1 h2)
  · exact Or.inl (lt_of_lt_of_le h1 (le_of_eq e2))
  · exact Or.inl (lt_of_le_of_lt (le_of_eq e1) h2)
  · exact Or.inr ⟨e1.trans e2, hpq p q⟩

theorem scoreLtB_false_iff (a b : ScoredRow) :
    scoreLtB b a = false ↔ scoreOrdered a b := by
  simp only [scoreLtB, decide_eq_false_iff_not, scoreOrdered]
  exact not_lex_iff not_lt

theorem scoreOrdered_trans (a b c : ScoredRow)
    (h1 : scoreOrdered a b) (h2 : scoreOrdered b c) : scoreOrdered a c := by
  unfold scoreOrdered at *
  exact lex_trans (fun p q => le_trans p q) h2 h1

theorem scoreLtB_asymm (a b : ScoredRow) (h : scoreLtB a b = true) :
    scoreLtB b a = false := by
  rw [scoreLtB_false_iff]
  rw [scoreLtB, decide_eq_true_eq] at h
  unfold scoreOrdered
  exact h.imp_right (And.imp_right le_of_lt)

theorem scoreLtB_negtrans (a b c : ScoredRow)
    (h1 : scoreLtB b a = false) (h2 : scoreLtB c b = false) : scoreLtB c a = false :=
  (scoreLtB_false_iff a c).mpr
    (scoreOrdered_trans a b c ((scoreLtB_false_iff a b).mp h1)
      ((scoreLtB_false_iff b c).mp h2))

theorem finalLtB_false_iff (a b : SelectedRow) :
    finalLtB b a = false ↔ finalOrdered a b := by
  simp only [finalLtB, decide_eq_false_iff_not, finalOrdered]
  exact not_lex_iff (not_lex_iff (not_lex_iff not_lt))

theorem finalOrdered_trans (a b c : SelectedRow)
    (h1 : finalOrdered a b) (h2 : finalOrdered b c) : finalOrdered a c := by
  unfold finalOrdered at *
  refine lex_trans ?_ h1 h2
  intro p q
  refine lex_trans ?_ p q
  intro p2 q2
  exact lex_trans (fun p3 q3 => le_trans p3 q3) q2 p2

theorem finalLtB_asymm (a b : SelectedRow) (h : finalLtB a b = true) :
    finalLtB b a = false := by
  rw [finalLtB_false_iff]
  rw [finalLtB, decide_eq_true_eq] at h
  unfold finalOrdered
  exact h.imp_right (And.imp_right (Or.imp_right (And.imp_right
    (Or.imp_right (And.imp_right le_of_lt)))))

theorem finalLtB_negtrans (a b c : SelectedRow)
    (h1 : finalLtB b a = false) (h2 : finalLtB c b = false) : finalLtB c a = false :=
  (finalLtB_false_iff a c).mpr
    (finalOrdered_trans a b c ((finalLtB_false_iff a b).mp h1)
      ((finalLtB_false_iff b c).mp h2))

/-! ### Claim C9 - hour bucketing -/

/-- Claim C9: for every hour-of-day integer 0-23, `_hour_to_period` maps
hours in [5,12) to morning, hours in [12,17) to afternoon, and all other
hours (including hour 0) to evening. -/
theorem c9_hour_bucketing (h : Nat) (hh : h < 24) :
    (5 ≤ h ∧ h < 12 → hourToPeriod h = "morning") ∧
    (12 ≤ h ∧ h < 17 → hourToPeriod h = "afternoon") ∧
    (h < 5 ∨ 17 ≤ h → hourToPeriod h = "evening") := by
  refine ⟨?_, ?_, ?_⟩
  · intro hc
    simp [hourToPeriod, hc]
  · intro hc
    have h1 : ¬(5 ≤ h ∧ h < 12) := by omega
    simp [hourToPeriod, h1, hc]
  · intro hc
    have h1 : ¬(5 ≤ h ∧ h < 12) := by omega
    have h2 : ¬(12 ≤ h ∧ h < 17) := by omega
    simp [hourToPeriod, h1, h2]

theorem c9_witness :
    5 < 24 ∧ hourToPeriod 5 = "morning" ∧ 0 < 24 ∧ hourToPeriod 0 = "evening" :=
  ⟨by decide, (c9_hour_bucketing 5 (by decide)).1 (by decide), by decide,
   (c9_hour_bucketing 0 (by decide)).2.2 (by decide)⟩

/-! ### Claim C3 - the price parser -/

theorem parsePriceText_eq_match (s : String) (h1 : pyStrip s ≠ "")
    (h2 : pyUpper (pyStrip s) ≠ "N/A") (h3 : isFreeText (pyStrip s) = false) :
    parsePriceText s =
      (match priceTokens (pyStrip s) with
       | [] => 0
       | [x] => x
       | x :: y :: _ =>
         if hasRangeSep (pyStrip s) then roundTo2 ((x + y) / 2) else x) := by
  simp only [parsePriceText]
  rw [if_neg h1, if_neg h2, if_neg (by simp [h3])]

/-- Claim C3: `_parse_price_text` returns 0 for empty / "N/A" / free /
token-less strings; the single token's value when exactly one token is
present; the 2-decimal-rounded midpoint of the first two tokens when two or
more tokens are present together with a hyphen or the (space-delimited, as
the code implements it) word "to"; and otherwise the first token.  The
spec's own concrete examples are included. -/
theorem c3_parse_price (s : String) :
    ((pyStrip s = "" ∨ pyUpper (pyStrip s) = "N/A" ∨ isFreeText (pyStrip s) = true ∨
        priceTokens (pyStrip s) = []) → parsePriceText s = 0) ∧
    (∀ x : ℚ, priceTokens (pyStrip s) = [x] → pyStrip s ≠ "" →
        pyUpper (pyStrip s) ≠ "N/A" → isFreeText (pyStrip s) = false →
        parsePriceText s = x) ∧
    (∀ x y : ℚ, ∀ r : List ℚ, priceTokens (pyStrip s) = x :: y :: r →
        hasRangeSep (pyStrip s) = true → pyStrip s ≠ "" →
        pyUpper (pyStrip s) ≠ "N/A" → isFreeText (pyStrip s) = false →
        parsePriceText s = roundTo2 ((x + y) / 2)) ∧
    (∀ x y : ℚ, ∀ r : List ℚ, priceTokens (pyStrip s) = x :: y :: r →
        hasRangeSep (pyStrip s) = false → pyStrip s ≠ "" →
        pyUpper (pyStrip s) ≠ "N/A" → isFreeText (pyStrip s) = false →
        parsePriceText s = x) ∧
    parsePriceText ("$10 - $20") = 15 ∧ parsePriceText ("$10 to $20") = 15 ∧
    parsePriceText ("$42.50") = 85 / 2 := by
  refine ⟨?_, ?_, ?_, ?_, ?_, ?_, ?_⟩
  · intro hc0
    by_cases h1 : pyStrip s = ""
    · simp [parsePriceText, h1]
    · by_cases h2 : pyUpper (pyStrip s) = "N/A"
      · simp [parsePriceText, h1, h2]
      · by_cases h3 : isFreeText (pyStrip s) = true
        · simp [parsePriceText, h1, h2, h3]
        · have h3f : isFreeText (pyStrip s) = false := by
            cases hv : isFreeText (pyStrip s)
            · rfl
            · exact absurd hv h3
          rcases hc0 with hc | hc | hc | hc
          · exact absurd hc h1
          · exact absurd hc h2
          · exact absurd hc h3
          · rw [parsePriceText_eq_match s h1 h2 h3f, hc]
  · intro x hx h1 h2 h3
    rw [parsePriceText_eq_match s h1 h2 h3, hx]
  · intro x y r hx hsep h1 h2 h3
    rw [parsePriceText_eq_match s h1 h2 h3, hx]
    simp [hsep]
  · intro x y r hx hsep h1 h2 h3
    rw [parsePriceText_eq_match s h1 h2 h3, hx]
    simp [hsep]
  · with_unfolding_all rfl
  · with_unfolding_all rfl
  · with_unfolding_all rfl

theorem c3_witness :
    priceTokens (pyStrip ("$10 - $20")) = [10, 20] ∧
    hasRangeSep (pyStrip ("$10 - $20")) = true ∧
    parsePriceText ("$10 - $20") = roundTo2 ((10 + 20) / 2) :=
  ⟨by with_unfolding_all rfl, by with_unfolding_all rfl,
   (c3_parse_price ("$10 - $20")).2.2.1 10 20 [] (by with_unfolding_all rfl)
     (by with_unfolding_all rfl) (by with_unfolding_all decide)
     (by with_unfolding_all decide) (by with_unfolding_all rfl)⟩

/-! ### Claim C4 - the budget score -/

/-- Claim C4 is refuted as stated: `_budget_score` divides by
`max(budget, 1e-9)`, not by `budget`, so for `cost = budget = 1e-10` the
score is 0.94, not the claimed `max(0.4, 1 − 0.6·cost/budget) = 0.4`. -/
theorem c4_counterexample :
    budgetScore (1 / 10000000000) (1 / 10000000000) = 47 / 50 ∧
    max (2 / 5 : ℚ)
      (1 - 3 / 5 * ((1 / 10000000000 : ℚ) / (1 / 10000000000))) = 2 / 5 ∧
    (47 / 50 : ℚ) ≠ 2 / 5 :=
  ⟨by with_unfolding_all rfl, by with_unfolding_all rfl, by with_unfolding_all decide⟩

/-- Claim C4 (amended): the denominators are clamped to `max(budget, 1e-9)`;
with that clamp the claimed piecewise description holds, and
`cost = budget` gives exactly 0.4 whenever `budget ≥ 1e-9`. -/
theorem c4_budget_score_amended (cost budget : ℚ) (_hc : 0 ≤ cost) :
    (budget ≤ 0 → budgetScore cost budget = 7 / 10) ∧
    (0 < budget → cost ≤ budget →
      budgetScore cost budget =
        max (2 / 5) (1 - 3 / 5 * (cost / max budget (1 / 1000000000)))) ∧
    (0 < budget → budget < cost →
      ((cost - budget) / max budget (1 / 1000000000) ≤ 1 / 10 →
          budgetScore cost budget = 1 / 5) ∧
      (1 / 10 < (cost - budget) / max budget (1 / 1000000000) →
          (cost - budget) / max budget (1 / 1000000000) ≤ 1 / 4 →
          budgetScore cost budget = 1 / 10) ∧
      (1 / 4 < (cost - budget) / max budget (1 / 1000000000) →
          budgetScore cost budget = 0)) ∧
    (1 / 1000000000 ≤ budget → budgetScore budget budget = 2 / 5) := by
  refine ⟨?_, ?_, ?_, ?_⟩
  · intro hb
    simp [budgetScore, hb]
  · intro hb hcb
    simp only [budgetScore]
    rw [if_neg (not_le.mpr hb), if_pos hcb]
    congr 1
    ring
  · intro hb hbc
    have h1 : ¬(budget ≤ 0) := not_le.mpr hb
    have h2 : ¬(cost ≤ budget) := not_le.mpr hbc
    refine ⟨?_, ?_, ?_⟩
    · intro hr
      simp only [budgetScore]
      rw [if_neg h1, if_neg h2, if_pos hr]
    · intro hr1 hr2
      simp only [budgetScore]
      rw [if_neg h1, if_neg h2, if_neg (not_le.mpr hr1), if_pos hr2]
    · intro hr
      have hr1 : (1 : ℚ) / 10 < (cost - budget) / max budget (1 / 1000000000) :=
        lt_trans (by norm_num) hr
      simp only [budgetScore]
      rw [if_neg h1, if_neg h2, if_neg (not_le.mpr hr1), if_neg (not_le.mpr hr)]
  · intro hb9
    have hb : 0 < budget := lt_of_lt_of_le (by norm_num) hb9
    simp only [budgetScore]
    rw [if_neg (not_le.mpr hb), if_pos (le_refl budget), max_eq_left hb9,
      div_self (ne_of_gt hb)]
    norm_num

theorem c4_witness :
    (0 : ℚ) ≤ 30 ∧ (0 : ℚ) < 100 ∧ (30 : ℚ) ≤ 100 ∧
    budgetScore 30 100 =
      max (2 / 5) (1 - 3 / 5 * ((30 : ℚ) / max 100 (1 / 1000000000))) :=
  ⟨by with_unfolding_all decide, by with_unfolding_all decide,
   by with_unfolding_all decide,
   (c4_budget_score_amended 30 100 (by with_unfolding_all decide)).2.1
     (by with_unfolding_all decide) (by with_unfolding_all decide)⟩

/-! ### Claim C5 - time score and overall score -/

theorem mem_scoredUnsorted {t : Table} {prefs : UserPreferences} {l : List ScoredRow}
    (h : scoredUnsorted t prefs = Except.ok l) {r : ScoredRow} (hr : r ∈ l) :
    ∃ c : Candidate, r = mkScored c prefs := by
  unfold scoredUnsorted at h
  cases hp : prepareCandidates t with
  | error e =>
    rw [hp] at h
    exact Except.noConfusion h
  | ok prepared =>
    rw [hp] at h
    dsimp only at h
    by_cases he : prepared.isEmpty
    · rw [if_pos he] at h
      cases h
      exact absurd hr (List.not_mem_nil r)
    · rw [if_neg he] at h
      cases h
      rcases List.mem_map.mp hr with ⟨c, _, hc⟩
      exact ⟨c, hc.symm⟩

/-- Claim C5: the time score is 1 when the (normalized) preferred period is
"any"; otherwise 0.2 without a start time, and 1 / 0.55 / 0.25 by bucket
distance (order morning < afternoon < evening); and every scored row's
`overall_score` is `0.55·price_score + 0.45·time_score`. -/
theorem c5_time_and_overall (prefs : UserPreferences) :
    (normalizePeriod prefs.preferred_period = "any" →
      ∀ ts : Option DateTime, timeScore ts prefs = 1) ∧
    (normalizePeriod prefs.preferred_period ≠ "any" → timeScore none prefs = 1 / 5) ∧
    (normalizePeriod prefs.preferred_period ≠ "any" → ∀ t : DateTime,
      timeScore (some t) prefs =
        (if (periodIndex (hourToPeriod t.hour) -
              periodIndex (normalizePeriod prefs.preferred_period)).natAbs = 0 then 1
         else if (periodIndex (hourToPeriod t.hour) -
              periodIndex (normalizePeriod prefs.preferred_period)).natAbs = 1 then 11 / 20
         else 1 / 4)) ∧
    (∀ t : Table, ∀ out : List ScoredRow, scoreCandidates t prefs = Except.ok out →
      ∀ r, r ∈ out → r.overall_score = 11 / 20 * r.price_score + 9 / 20 * r.time_score) := by
  refine ⟨?_, ?_, ?_, ?_⟩
  · intro hp ts
    simp [timeScore, hp]
  · intro hp
    simp [timeScore, hp]
  · intro hp t
    simp [timeScore, hp]
  · intro t out hout r hr
    unfold scoreCandidates at hout
    cases hu : scoredUnsorted t prefs with
    | error e =>
      rw [hu] at hout
      exact Except.noConfusion hout
    | ok base =>
      rw [hu] at hout
      cases hout
      have hrb : r ∈ base := (sortStable_perm scoreLtB base).mem_iff.mp hr
      rcases mem_scoredUnsorted hu hrb with ⟨c, rfl⟩
      simp only [mkScored]
      ring

theorem c5_witness :
    normalizePeriod w5Prefs.preferred_period ≠ "any" ∧ timeScore none w5Prefs = 1 / 5 :=
  ⟨by with_unfolding_all decide,
   (c5_time_and_overall w5Prefs).2.1 (by with_unfolding_all decide)⟩

/-! ### Claim C6 - ranking order and stability of `score_candidates` -/

/-- Claim C6: `score_candidates` returns rows ordered descending by
`overall_score`, ties broken by descending `time_score`, and the sort is
stable: rows equal on both keys keep the relative order of the pre-sort
pipeline (which itself is order-preserving over the input table). -/
theorem c6_score_sort_stable (t : Table) (prefs : UserPreferences) (out : List ScoredRow)
    (h : scoreCandidates t prefs = Except.ok out) :
    out.Pairwise scoreOrdered ∧
    ∃ base : List ScoredRow, scoredUnsorted t prefs = Except.ok base ∧
      List.Perm out base ∧
      ∀ K : ℚ × ℚ,
        out.filter (fun r => decide (r.overall_score = K.1 ∧ r.time_score = K.2)) =
        base.filter (fun r => decide (r.overall_score = K.1 ∧ r.time_score = K.2)) := by
  unfold scoreCandidates at h
  cases hu : scoredUnsorted t prefs with
  | error e =>
    rw [hu] at h
    exact Except.noConfusion h
  | ok base =>
    rw [hu] at h
    cases h
    refine ⟨?_, base, rfl, sortStable_perm scoreLtB base, ?_⟩
    · exact (pairwise_sortStable scoreLtB scoreLtB_asymm scoreLtB_negtrans base).imp
        (fun hab => (scoreLtB_false_iff _ _).mp hab)
    · intro K
      apply filter_sortStable
      intro x y hlt hpy hpx
      simp only [decide_eq_true_eq] at hpy hpx
      rw [scoreLtB, decide_eq_true_eq] at hlt
      rcases hlt with hlt | ⟨_, ht⟩
      · rw [hpx.1, hpy.1] at hlt
        exact lt_irrefl _ hlt
      · rw [hpx.2, hpy.2] at ht
        exact lt_irrefl _ ht

set_option maxRecDepth 8000 in
theorem c6_witness :
    scoreCandidates w6Tbl w6Prefs = Except.ok [w6ScoredA, w6ScoredB] ∧
    List.Pairwise scoreOrdered [w6ScoredA, w6ScoredB] :=
  ⟨by with_unfolding_all rfl,
   (c6_score_sort_stable w6Tbl w6Prefs [w6ScoredA, w6ScoredB]
     (by with_unfolding_all rfl)).1⟩

/-! ### Claim C7 - deduplication in the normalizer -/

/-- Claim C7 is refuted as stated: `_prepare_candidates` deduplicates with
`drop_duplicates` on the raw stripped columns, which is case-SENSITIVE; two
rows identical except for letter case in `name` both survive, even though
their (lowercased) identity keys coincide. -/
theorem c7_counterexample :
    prepareCandidates w7Tbl = Except.ok [prepareRow w7RowA, prepareRow w7RowB] ∧
    candidateIdentity (prepareRow w7RowA) = candidateIdentity (prepareRow w7RowB) ∧
    prepareRow w7RowA ≠ prepareRow w7RowB :=
  ⟨by with_unfolding_all rfl, by with_unfolding_all rfl, by with_unfolding_all decide⟩

theorem dedupByKey_sublist {α κ : Type} [DecidableEq κ] (key : α → κ) (seen : List κ)
    (l : List α) : List.Sublist (dedupByKey key seen l) l := by
  induction l generalizing seen with
  | nil => simp [dedupByKey]
  | cons x xs ih =>
    simp only [dedupByKey]
    split
    · exact List.Sublist.cons x (ih seen)
    · exact List.Sublist.cons₂ x (ih _)

theorem dedupByKey_keys_nodup {α κ : Type} [DecidableEq κ] (key : α → κ) (l : List α) :
    ∀ seen : List κ, ((dedupByKey key seen l).map key).Nodup ∧
      ∀ k, k ∈ (dedupByKey key seen l).map key → k ∉ seen := by
  induction l with
  | nil =>
    intro seen
    simp [dedupByKey]
  | cons x xs ih =>
    intro seen
    simp only [dedupByKey]
    split
    · exact ih seen
    · rename_i hx
      rcases ih (key x :: seen) with ⟨h1, h2⟩
      constructor
      · simp only [List.map_cons, List.nodup_cons]
        refine ⟨?_, h1⟩
        intro hmem
        exact (h2 (key x) hmem) (List.mem_cons_self _ _)
      · intro k hk
        simp only [List.map_cons, List.mem_cons] at hk
        rcases hk with rfl | hk
        · exact hx
        · intro hks
          exact (h2 k hk) (List.mem_cons_of_mem _ hks)

theorem dedupByKey_find {α κ : Type} [DecidableEq κ] (key : α → κ) (l : List α) :
    ∀ seen : List κ, ∀ k : κ, k ∉ seen →
      (dedupByKey key seen l).find? (fun c => decide (key c = k)) =
        l.find? (fun c => decide (key c = k)) := by
  induction l with
  | nil =>
    intro seen k _
    simp [dedupByKey]
  | cons x xs ih =>
    intro seen k hk
    simp only [dedupByKey]
    split
    · rename_i hx
      have hne : key x ≠ k := fun he => hk (he ▸ hx)
      rw [ih seen k hk, List.find?_cons_of_neg _ (by simp [hne])]
    · rename_i hx
      by_cases he : key x = k
      · rw [List.find?_cons_of_pos _ (by simp [he]),
          List.find?_cons_of_pos _ (by simp [he])]
      · rw [List.find?_cons_of_neg _ (by simp [he]),
          List.find?_cons_of_neg _ (by simp [he])]
        refine ih (key x :: seen) k ?_
        intro hmem
        rcases List.mem_cons.mp hmem with rfl | hmem2
        · exact he rfl
        · exact hk hmem2

/-- Claim C7 (amended): the normalizer deduplicates by the case-sensitive
stripped key (source, name, date, time, location), keeping the first
occurrence in original order: the surviving rows are a subsequence of the
prepared rows with pairwise-distinct keys, and the representative of every
key is the first row carrying it.  Rows differing only in letter case are
not collapse-equivalent here; the case-insensitive identity key is applied
later, by the orchestrator. -/
theorem c7_prepare_dedup_amended (t : Table) (l : List Candidate)
    (hrows : t.rows ≠ []) (hcols : t.columns ≠ []) (hmiss : missingColumns t = [])
    (h : prepareCandidates t = Except.ok l) :
    ((l.map prepKey).Nodup) ∧ List.Sublist l (preparedNoDedup t.rows) ∧
    (∀ k, l.find? (fun c => decide (prepKey c = k)) =
      (preparedNoDedup t.rows).find? (fun c => decide (prepKey c = k))) := by
  unfold prepareCandidates at h
  rw [if_neg (by simp [List.isEmpty_iff, hrows, hcols])] at h
  rw [hmiss] at h
  simp only [List.isEmpty_nil, if_true] at h
  cases h
  refine ⟨(dedupByKey_keys_nodup prepKey _ []).1, dedupByKey_sublist prepKey [] _, ?_⟩
  intro k
  exact dedupByKey_find prepKey _ [] k (List.not_mem_nil k)

theorem c7_witness :
    w7Tbl.rows ≠ [] ∧ w7Tbl.columns ≠ [] ∧ missingColumns w7Tbl = [] ∧
    ([prepareRow w7RowA, prepareRow w7RowB].map prepKey).Nodup :=
  ⟨by with_unfolding_all decide, by with_unfolding_all decide,
   by with_unfolding_all rfl,
   (c7_prepare_dedup_amended w7Tbl [prepareRow w7RowA, prepareRow w7RowB]
     (by with_unfolding_all decide) (by with_unfolding_all decide)
     (by with_unfolding_all rfl) (by with_unfolding_all rfl)).1⟩

/-! ### Claim C8 - schema errors -/

/-- Claim C8 is refuted as stated: an EMPTY input table lacking every
required column is returned unchanged, with no error, because
`_prepare_candidates` returns early on `df.empty` before the schema check. -/
theorem c8_counterexample :
    (("name") ∈ requiredColumns ∧ (("name") ∈ w8EmptyTbl.columns → False)) ∧
    prepareCandidates w8EmptyTbl = Except.ok [] :=
  ⟨by with_unfolding_all decide, by with_unfolding_all rfl⟩

/-- Claim C8 (amended): for every NON-empty input table (at least one row
and at least one column) lacking required columns, `_prepare_candidates`
(and hence `score_candidates`) raises an error whose message names the
missing columns; it does not return a result. -/
theorem c8_missing_columns_amended (t : Table)
    (hrows : t.rows ≠ []) (hcols : t.columns ≠ []) (hmiss : missingColumns t ≠ []) :
    prepareCandidates t =
      Except.error (("Recommendation input is missing required columns: ") ++
        joinComma (missingColumns t)) ∧
    ∀ prefs : UserPreferences,
      scoreCandidates t prefs =
        Except.error (("Recommendation input is missing required columns: ") ++
          joinComma (missingColumns t)) := by
  have hp : prepareCandidates t =
      Except.error (("Recommendation input is missing required columns: ") ++
        joinComma (missingColumns t)) := by
    unfold prepareCandidates
    rw [if_neg (by simp [List.isEmpty_iff, hrows, hcols])]
    rw [if_neg (by simp [List.isEmpty_iff, hmiss])]
  refine ⟨hp, ?_⟩
  intro prefs
  unfold scoreCandidates scoredUnsorted
  rw [hp]

theorem c8_witness :
    w8Tbl.rows ≠ [] ∧ w8Tbl.columns ≠ [] ∧ missingColumns w8Tbl ≠ [] ∧
    prepareCandidates w8Tbl =
      Except.error (("Recommendation input is missing required columns: ") ++
        joinComma (missingColumns w8Tbl)) :=
  ⟨by with_unfolding_all decide, by with_unfolding_all decide,
   by with_unfolding_all decide,
   (c8_missing_columns_amended w8Tbl (by with_unfolding_all decide)
     (by with_unfolding_all decide) (by with_unfolding_all decide)).1⟩

/-! ### The shape of successful `selectRanked` results -/

theorem selectRanked_ok_shape (t : Table) (prefs : UserPreferences)
    (out : List SelectedRow) (diag : Diagnostics)
    (h : selectRanked t prefs = Except.ok (out, diag)) :
    diag.requested = (max 1 prefs.max_results).toNat ∧
    out.length ≤ (max 1 prefs.max_results).toNat ∧
    out.Pairwise finalOrdered := by
  simp only [selectRanked] at h
  cases hl : selectLoop t prefs ((max 1 prefs.max_results).toNat)
      (buildFlexibleFilterStages prefs) [] [] 0 with
  | error e =>
    rw [hl] at h
    exact Except.noConfusion h
  | ok res =>
    rcases res with ⟨rows, ea⟩
    rw [hl] at h
    dsimp only at h
    by_cases hre : rows.isEmpty
    · rw [if_pos hre] at h
      cases h
      exact ⟨rfl, by simp, List.Pairwise.nil⟩
    · rw [if_neg hre] at h
      cases h
      refine ⟨rfl, le_trans (List.length_take_le _ _) (le_refl _), ?_⟩
      refine List.Pairwise.sublist (List.take_sublist _ _) ?_
      exact (pairwise_sortStable finalLtB finalLtB_asymm finalLtB_negtrans rows).imp
        (fun hab => (finalLtB_false_iff _ _).mp hab)

/-! ### Claim C1 - the final ordering invariant -/

/-- Claim C1: the final table of
`select_ranked_candidates_with_flexible_filters` is sorted by match-stage
priority ascending, then date-distance ascending (0 for rows without the
date-distance column), then `overall_score` descending, then `time_score`
descending; it has at most `max_results` rows; and in particular no row
with a higher priority number ever precedes a row with a lower one. -/
theorem c1_final_sorted (t : Table) (prefs : UserPreferences)
    (out : List SelectedRow) (diag : Diagnostics)
    (hmr : 1 ≤ prefs.max_results)
    (h : selectRanked t prefs = Except.ok (out, diag)) :
    out.Pairwise finalOrdered ∧
    (out.length : Int) ≤ prefs.max_results ∧
    out.Pairwise (fun a b =>
      matchLevelPriority a.matchLevel ≤ matchLevelPriority b.matchLevel) := by
  rcases selectRanked_ok_shape t prefs out diag h with ⟨_, hlen, hpair⟩
  refine ⟨hpair, ?_, ?_⟩
  · omega
  · refine hpair.imp ?_
    intro a b hab
    rcases hab with hab | ⟨he, _⟩
    · exact le_of_lt hab
    · exact le_of_eq he

theorem c1_witness :
    (1 : Int) ≤ w1Prefs.max_results ∧
    selectRanked w1Tbl w1Prefs = Except.ok ([w1Sel], Diagnostics.mk 5 1 1 1 0) ∧
    (([w1Sel] : List SelectedRow).length : Int) ≤ w1Prefs.max_results :=
  ⟨by with_unfolding_all decide, by with_unfolding_all rfl,
   (c1_final_sorted w1Tbl w1Prefs [w1Sel] (Diagnostics.mk 5 1 1 1 0)
     (by with_unfolding_all decide) (by with_unfolding_all rfl)).2.1⟩

/-! ### Claim C2 - no date relaxation without the flag -/

theorem mem_filterByPrice {c : Candidate} {l : List Candidate} {a b : ℚ}
    (h : c ∈ filterByPrice l a b) : c ∈ l := by
  unfold filterByPrice at h
  split at h
  · exact h
  · split at h
    · exact h
    · exact List.mem_of_mem_filter h

theorem mem_filterByTimePeriod {c : Candidate} {l : List Candidate} {p : String}
    (h : c ∈ filterByTimePeriod l p) : c ∈ l := by
  unfold filterByTimePeriod at h
  split at h
  · exact h
  · dsimp only at h
    split at h
    · exact h
    · exact List.mem_of_mem_filter h

theorem mem_prepareCandidates {t : Table} {l : List Candidate}
    (h : prepareCandidates t = Except.ok l) {c : Candidate} (hc : c ∈ l) :
    ∃ r, r ∈ t.rows ∧ c = prepareRow r := by
  unfold prepareCandidates at h
  split at h
  · cases h
    exact absurd hc (List.not_mem_nil c)
  · dsimp only at h
    split at h
    · cases h
      have h1 : c ∈ preparedNoDedup t.rows :=
        (dedupByKey_sublist prepKey [] _).subset hc
      have h2 : c ∈ t.rows.map prepareRow := List.mem_of_mem_filter h1
      rcases List.mem_map.mp h2 with ⟨r, hr, hcr⟩
      exact ⟨r, hr, hcr.symm⟩
    · exact Except.noConfusion h

theorem scoreCandidates_empty_of_no_date {t : Table} {sp : UserPreferences} {d : Int}
    (hd : sp.event_date = some d)
    (hkill : ∀ r, r ∈ t.rows → ∀ ts : DateTime, coerceStartTime r = some ts → ts.day ≠ d)
    {l : List ScoredRow} (h : scoreCandidates t sp = Except.ok l) : l = [] := by
  unfold scoreCandidates at h
  cases hu : scoredUnsorted t sp with
  | error e =>
    rw [hu] at h
    exact Except.noConfusion h
  | ok base =>
    rw [hu] at h
    cases h
    suffices hb : base = [] by rw [hb]; rfl
    unfold scoredUnsorted at hu
    cases hp : prepareCandidates t with
    | error e =>
      rw [hp] at hu
      exact Except.noConfusion hu
    | ok prepared =>
      rw [hp] at hu
      dsimp only at hu
      by_cases he : prepared.isEmpty
      · rw [if_pos he] at hu
        cases hu
        rfl
      · rw [if_neg he] at hu
        cases hu
        suffices h3 : filterByEventDate
            (filterByTimePeriod
              (filterByPrice prepared (max 0 sp.min_price) (max 0 sp.budget))
              (normalizePeriod sp.preferred_period)) sp.event_date = [] by
          rw [h3]
          rfl
        rw [hd]
        unfold filterByEventDate
        split
        · rename_i hfe
          exact List.isEmpty_iff.mp hfe
        · rw [List.filter_eq_nil_iff]
          intro c hcf
          have hc1 : c ∈ prepared := mem_filterByPrice (mem_filterByTimePeriod hcf)
          rcases mem_prepareCandidates hp hc1 with ⟨r, hr, rfl⟩
          simp only [prepareRow]
          cases hst : coerceStartTime r with
          | none => simp
          | some ts => simp [hkill r hr ts hst]

theorem applyStage_nil (level : MatchLevel) (prefs : UserPreferences) :
    applyStageSpecificFilters [] level prefs = [] := by
  unfold applyStageSpecificFilters
  split
  · cases prefs.event_date <;> rfl
  · rfl

theorem selectLoop_empty_stages (t : Table) (prefs : UserPreferences) (target : Nat)
    (stages : List (MatchLevel × UserPreferences))
    (hstages : ∀ lvl sp, (lvl, sp) ∈ stages →
      ∀ l, scoreCandidates t sp = Except.ok l → l = []) :
    ∀ seen acc ea,
      (∃ e, selectLoop t prefs target stages seen acc ea = Except.error e) ∨
      ∃ ea2, selectLoop t prefs target stages seen acc ea = Except.ok (acc, ea2) := by
  induction stages with
  | nil =>
    intro seen acc ea
    exact Or.inr ⟨ea, rfl⟩
  | cons hd rest ih =>
    intro seen acc ea
    rcases hd with ⟨level, sp⟩
    simp only [selectLoop]
    cases hs : scoreCandidates t sp with
    | error e => exact Or.inl ⟨e, rfl⟩
    | ok scored =>
      have hsc : scored = [] :=
        hstages level sp (List.mem_cons_self _ _) scored hs
      subst hsc
      dsimp only
      rw [applyStage_nil]
      simp only [List.isEmpty_nil, if_true]
      exact ih (fun lvl sp2 hm => hstages lvl sp2 (List.mem_cons_of_mem _ hm)) seen acc _

/-- Claim C2: with `allow_flexible_dates = False` and a parseable requested
date that no candidate's coerced start time falls on (at day granularity),
the stage list contains only the EXACT and FLEXIBLE_PERIOD stages - both
keeping the requested date - and the final result table is empty with
`returned = 0`, even though relaxing the period alone could match other
dates. -/
theorem c2_no_date_relaxation (t : Table) (prefs : UserPreferences) (d : Int)
    (hflag : prefs.allow_flexible_dates = false)
    (hdate : prefs.event_date = some d)
    (hkill : ∀ r, r ∈ t.rows → ∀ ts : DateTime, coerceStartTime r = some ts → ts.day ≠ d) :
    (∀ lvl sp, (lvl, sp) ∈ buildFlexibleFilterStages prefs →
      (lvl = MatchLevel.exact ∨ lvl = MatchLevel.flexible_period) ∧
      sp.event_date = some d) ∧
    (∀ out diag, selectRanked t prefs = Except.ok (out, diag) →
      out = [] ∧ diag.returned = 0) := by
  have hstages : ∀ lvl sp, (lvl, sp) ∈ buildFlexibleFilterStages prefs →
      (lvl = MatchLevel.exact ∨ lvl = MatchLevel.flexible_period) ∧
      sp.event_date = some d := by
    intro lvl sp hm
    unfold buildFlexibleFilterStages at hm
    rw [hflag] at hm
    simp only [Bool.false_eq_true, and_false, if_false, List.append_nil] at hm
    by_cases hp : normalizePeriod prefs.preferred_period = "any"
    · rw [if_neg (by simp [hp])] at hm
      simp only [List.append_nil, List.mem_singleton, Prod.mk.injEq] at hm
      rcases hm with ⟨rfl, rfl⟩
      exact ⟨Or.inl rfl, hdate⟩
    · rw [if_pos hp] at hm
      simp only [List.mem_append, List.mem_singleton, Prod.mk.injEq] at hm
      rcases hm with ⟨rfl, rfl⟩ | ⟨rfl, rfl⟩
      · exact ⟨Or.inl rfl, hdate⟩
      · exact ⟨Or.inr rfl, hdate⟩
  refine ⟨hstages, ?_⟩
  intro out diag h
  have hkill2 : ∀ lvl sp, (lvl, sp) ∈ buildFlexibleFilterStages prefs →
      ∀ l, scoreCandidates t sp = Except.ok l → l = [] := by
    intro lvl sp hm l hl
    exact scoreCandidates_empty_of_no_date (hstages lvl sp hm).2 hkill hl
  simp only [selectRanked] at h
  rcases selectLoop_empty_stages t prefs ((max 1 prefs.max_results).toNat)
      (buildFlexibleFilterStages prefs) hkill2 [] [] 0 with ⟨e, he⟩ | ⟨ea2, he⟩
  · rw [he] at h
    exact Except.noConfusion h
  · rw [he] at h
    dsimp only at h
    cases h
    exact ⟨rfl, rfl⟩

theorem c2_witness :
    w2Prefs.allow_flexible_dates = false ∧ w2Prefs.event_date = some 5 ∧
    selectRanked w2Tbl w2Prefs = Except.ok ([], Diagnostics.mk 5 0 0 0 0) ∧
    (([] : List SelectedRow) = [] ∧ (Diagnostics.mk 5 0 0 0 0).returned = 0) :=
  ⟨rfl, rfl, by with_unfolding_all rfl,
   (c2_no_date_relaxation w2Tbl w2Prefs 5 rfl rfl (by
      intro r hr ts hts
      have hr2 : r = w2Row := by simpa [w2Tbl] using hr
      subst hr2
      have hcs : coerceStartTime w2Row = some (DateTime.mk 3 10) := by
        with_unfolding_all rfl
      rw [hcs] at hts
      cases hts
      decide)).2 [] (Diagnostics.mk 5 0 0 0 0) (by with_unfolding_all rfl)⟩

/-! ### Claim C10 - the `max_results ≤ 0` clamp -/

/-- Claim C10: with `max_results ≤ 0` (outside the spec's stated domain) the
selection target is clamped to `max(1, max_results) = 1`: the orchestrator
returns at most one row and reports `requested = 1`, and
`build_event_suggestions` still emits the first row of a non-empty table. -/
theorem c10_max_results_clamp (prefs : UserPreferences)
    (hmr : prefs.max_results ≤ 0) :
    (∀ t out diag, selectRanked t prefs = Except.ok (out, diag) →
      out.length ≤ 1 ∧ diag.requested = 1) ∧
    (∀ s rest, buildEventSuggestions (s :: rest) prefs = [mkSuggestion 1 s]) := by
  have htarget : (max 1 prefs.max_results).toNat = 1 := by
    rw [max_eq_left (le_trans hmr (by norm_num))]
    rfl
  refine ⟨?_, ?_⟩
  · intro t out diag h
    rcases selectRanked_ok_shape t prefs out diag h with ⟨hreq, hlen, _⟩
    rw [htarget] at hreq hlen
    exact ⟨hlen, hreq⟩
  · intro s rest
    unfold buildEventSuggestions
    rw [if_neg (by simp), htarget]
    rfl

theorem c10_witness :
    w10Prefs.max_results ≤ 0 ∧
    selectRanked w10Tbl w10Prefs = Except.ok ([w10Sel], Diagnostics.mk 1 1 1 1 0) ∧
    (([w10Sel] : List SelectedRow).length ≤ 1 ∧
      (Diagnostics.mk 1 1 1 1 0).requested = 1) ∧
    buildEventSuggestions [w10Sel] w10Prefs = [mkSuggestion 1 w10Sel] :=
  ⟨by with_unfolding_all decide, by with_unfolding_all rfl,
   (c10_max_results_clamp w10Prefs (by with_unfolding_all decide)).1 w10Tbl
     [w10Sel] (Diagnostics.mk 1 1 1 1 0) (by with_unfolding_all rfl),
   (c10_max_results_clamp w10Prefs (by with_unfolding_all decide)).2 w10Sel []⟩

end Lime
